import Mathlib

/-!
Verification of the concurrent model-cache core of `tensorcraft/backend/model.py`
(repository netrack/bothe).  The Python source is shallowly embedded: async
effects (storage calls, uuid/time generation) become explicit oracle arguments,
the in-memory dict `Cache.models` becomes a finite-map function, and errors
become `Except` values.  The writer-lock discipline of `Cache.load` is modelled
explicitly by a two-task interleaving system for the concurrency claim.
-/

/-- Execution strategy names, embedding `class Strategy(enum.Enum)`:
`No = "no"`, `Mirrored = "mirrored"`, `MultiWorkerMirrored = "multi_worker_mirrored"`. -/
inductive Strategy where
  | no
  | mirrored
  | multiWorkerMirrored
deriving DecidableEq

/-- Embeds `Strategy(strategy)` enum conversion: `some` on a valid member value,
`none` when Python would raise `ValueError`. -/
def Strategy.ofString (s : String) : Option Strategy :=
  if s = "no" then some .no
  else if s = "mirrored" then some .mirrored
  else if s = "multi_worker_mirrored" then some .multiWorkerMirrored
  else none

/-- The instantiated strategy object (`strategy_class()`): `NoStrategy`,
`tf.distribute.MirroredStrategy`, or the multi-worker variant; opaque to this layer. -/
inductive StrategyInstance where
  | noStrategy
  | mirroredStrategy
  | multiWorkerMirroredStrategy
deriving DecidableEq

/-- Keys of the `Loader.strategies` class dict: all three enum members. -/
def Loader.strategiesKeys : List Strategy := [.no, .mirrored, .multiWorkerMirrored]

/-- Values of the `Loader.strategies` dict, instantiated (`strategy_class()`). -/
def Loader.strategies : Strategy → StrategyInstance
  | .no => .noStrategy
  | .mirrored => .mirroredStrategy
  | .multiWorkerMirrored => .multiWorkerMirroredStrategy

/-- Errors raised by `Loader.__init__`.  The repository's `tensorcraft.errors`
module is not part of the sources; the payloads are taken from the raise sites:
`Strategy(strategy)` raises `ValueError` for a non-member value, and the
explicit `raise ValueError("unknown strategy ...")` covers a member missing
from the dict.  Both are configuration errors at construction time. -/
inductive LoaderErr where
  | valueError (strategy : String)
  | unknownStrategy (strategy : String)
deriving DecidableEq

/-- The loader object after successful construction. -/
structure Loader where
  strategy : StrategyInstance
deriving DecidableEq

/-- Embeds `Loader.__init__(self, strategy)`: convert the string through the
enum (raising on a non-member), check membership in the `strategies` dict,
then instantiate the selected strategy class. -/
def Loader.init (strategy : String) : Except LoaderErr Loader :=
  match Strategy.ofString strategy with
  | none => .error (.valueError strategy)
  | some s =>
      if s ∉ Loader.strategiesKeys then .error (.unknownStrategy strategy)
      else .ok { strategy := Loader.strategies s }

/-- The opaque execution handle returned by the runtime
(`tf.keras.experimental.load_from_saved_model`).  `hid` distinguishes handle
instances; `input_shape` is the optionally exposed expected input shape
(`hasattr(self.model, "input_shape")`), batch dimension first. -/
structure Handle where
  hid : Nat
  input_shape : Option (List Nat)
deriving DecidableEq

/-- Embeds the `Model` entity (`Model.__init__` fields).  The uuid is a `Nat`,
`created_at` an `Int`.  `model` is the execution handle, `None` until loaded. -/
structure Model where
  id : Nat
  name : String
  tag : String
  created_at : Int
  path : Option String
  loader : Option Loader
  model : Option Handle
deriving DecidableEq

/-- Embeds `Model.__init__`: every freshly constructed instance has
`self.model = None` (unloaded). -/
def Model.init (uid : Nat) (name tag : String) (created_at : Int)
    (path : Option String) (loader : Option Loader) : Model :=
  { id := uid, name := name, tag := tag, created_at := created_at,
    path := path, loader := loader, model := none }

/-- Embeds the `Model.key` property: the pair `(name, tag)`. -/
def Model.key (m : Model) : String × String := (m.name, m.tag)

/-- Embeds the `Model.loaded` property: `self.model is not None`. -/
def Model.loaded (m : Model) : Bool := m.model.isSome

/-- Input to `predict` after `numpy.array(x)`: only its shape matters here. -/
structure Tensor where
  shape : List Nat
deriving DecidableEq

/-- Errors raised by `Model.predict`; payloads taken from the raise sites
`errors.NotLoadedError(self.name, self.tag)` and
`errors.InputShapeError(expected_dims, actual_dims)` (the `errors` module
itself is outside the provided sources). -/
inductive PredictErr where
  | notLoaded (name tag : String)
  | inputShape (expected actual : List Nat)
deriving DecidableEq

/-- Embeds `Model.predict(self, x)`.  The guard `if not self.model` is the
truthiness test on the handle; a runtime model object is never falsy, so it
is `self.model is None` here.  `_, *dims = shape` is `List.drop 1`.  The
delegated call `self.model.predict(x)` is represented by returning the invoked
handle together with its argument. -/
def Model.predict (m : Model) (x : Tensor) : Except PredictErr (Handle × Tensor) :=
  match m.model with
  | none => .error (.notLoaded m.name m.tag)
  | some h =>
      match h.input_shape with
      | some ishape =>
          let expected_dims := ishape.drop 1
          let actual_dims := x.shape.drop 1
          if expected_dims ≠ actual_dims then
            .error (.inputShape expected_dims actual_dims)
          else .ok (h, x)
      | none => .ok (h, x)

/-- The cache key type: `(name, tag)` pairs. -/
abbrev Key := String × String

/-- The in-memory dict `Cache.models`, embedded as a finite-map function. -/
def CacheMap := Key → Option Model

/-- The empty dict `self.models = {}` of `Cache.new`. -/
def CacheMap.empty : CacheMap := fun _ => none

/-- Dict assignment `self.models[key] = m`. -/
def CacheMap.insert (models : CacheMap) (key : Key) (m : Model) : CacheMap :=
  fun k => if k = key then some m else models k

/-- Dict deletion `del self.models[key]` (a no-op on an absent key matches the
guarded use in `delete_from_cache`). -/
def CacheMap.erase (models : CacheMap) (key : Key) : CacheMap :=
  fun k => if k = key then none else models k

/-- Embeds `Cache.unsafe_load(self, name, tag)`.  The storage call
`await self.storage.load(name, tag)` is the oracle argument `loadResult`.
Returns the updated map, the returned entry `self.models[key]`, and whether
`storage.load` was invoked.  The body: if the key is absent or the resident
entry is not loaded, fetch and store; then return `self.models[key]`. -/
def Cache.load_unlocked (models : CacheMap) (name tag : String) (loadResult : Model) :
    CacheMap × Option Model × Bool :=
  let key : Key := (name, tag)
  let invokeStorage : Bool :=
    match models key with
    | none => true
    | some m => !m.loaded
  let models' := if invokeStorage then models.insert key loadResult else models
  (models', models' key, invokeStorage)

/-- Embeds `Cache.load(self, name, tag)`: acquires the writer lock for the whole
operation and delegates to `unsafe_load` (`Cache.load_unlocked`); sequentially
the lock is invisible, and it is modelled explicitly in `LoadSys` below. -/
def Cache.load (models : CacheMap) (name tag : String) (loadResult : Model) :
    CacheMap × Option Model × Bool :=
  Cache.load_unlocked models name tag loadResult

/-- One iteration of the `Cache.all` generator body: insert the enumerated
model only when its key is not already present. -/
def Cache.allStep (models : CacheMap) (m : Model) : CacheMap :=
  if (models m.key).isSome then models else models.insert m.key m

/-- Embeds `Cache.all(self)`: holds the reader lock, walks the wrapped
storage's enumeration (oracle `storageAll`), populates absent keys, and yields
every enumerated model to the caller. -/
def Cache.all (models : CacheMap) (storageAll : List Model) : CacheMap × List Model :=
  (storageAll.foldl Cache.allStep models, storageAll)

/-- Embeds `Cache.save_to_cache(self, m)`: writer-lock-guarded unconditional
upsert `self.models[(m.name, m.tag)] = m`; also the `on_save` callback. -/
def Cache.save_to_cache (models : CacheMap) (m : Model) : CacheMap :=
  models.insert (m.name, m.tag) m

/-- Embeds `Cache.save(self, name, tag, model)`: the storage call
`await self.storage.save(name, tag, model)` is the oracle `storageResult`;
its result is written to the cache via `save_to_cache` and returned. -/
def Cache.save (models : CacheMap) (name tag : String) (storageResult : Model) :
    CacheMap × Model :=
  let models' := Cache.save_to_cache models storageResult
  (models', storageResult)

/-- Embeds `Cache.delete_from_cache(self, name, tag)`: writer-lock-guarded
removal of the key when present; also the `on_delete` callback. -/
def Cache.delete_from_cache (models : CacheMap) (name tag : String) : CacheMap :=
  models.erase (name, tag)

/-- Embeds `Cache.delete(self, name, tag)`: first `delete_from_cache`, then
`await self.storage.delete(name, tag)`.  The storage call's outcome is the
oracle `storageResult` (an `Except` so a raising delete is representable); it
happens after the cache update and its error propagates unchanged. -/
def Cache.delete {ε : Type} (models : CacheMap) (name tag : String)
    (storageResult : Except ε Unit) : CacheMap × Except ε Unit :=
  let models' := Cache.delete_from_cache models name tag
  (models', storageResult)

/-- Callback references registered on the storage's signals. -/
inductive Callback where
  | saveToCache
  | deleteFromCache
  | other (n : Nat)
deriving DecidableEq

/-- The wrapped storage's `on_save` / `on_delete` signals: ordered lists of
registered callbacks. -/
structure Signals where
  on_save : List Callback
  on_delete : List Callback
deriving DecidableEq

/-- One iteration of the preload loop in `Cache.new`:
`async for m in self.all()` first performs the generator's insert-if-absent
for `m`, then the loop body runs `await self.unsafe_load(m.name, m.tag)`. -/
def Cache.preloadStep (storageLoad : String → String → Model)
    (models : CacheMap) (m : Model) : CacheMap :=
  let models₁ := Cache.allStep models m
  (Cache.load_unlocked models₁ m.name m.tag (storageLoad m.name m.tag)).1

/-- Embeds `Cache.new(cls, storage, preload)`: starts from an empty map,
appends `save_to_cache` to `storage.on_save` and `delete_from_cache` to
`storage.on_delete`, and, when `preload` is set, consumes `self.all()`
(enumeration oracle `storageAll`) loading every enumerated model
(`storage.load` oracle `storageLoad`) before returning. -/
def Cache.new (sigs : Signals) (preload : Bool) (storageAll : List Model)
    (storageLoad : String → String → Model) : Signals × CacheMap :=
  let sigs' : Signals :=
    { on_save := sigs.on_save ++ [Callback.saveToCache],
      on_delete := sigs.on_delete ++ [Callback.deleteFromCache] }
  if preload then
    (sigs', storageAll.foldl (Cache.preloadStep storageLoad) CacheMap.empty)
  else
    (sigs', CacheMap.empty)

/-- Concrete loaded model used by witnesses: handle present, no exposed shape. -/
def mA : Model :=
  { id := 1, name := "a", tag := "v1", created_at := 0, path := some "p",
    loader := none, model := some ⟨7, none⟩ }

/-- Concrete unloaded model used by witnesses, built via `Model.__init__`. -/
def mU : Model := Model.init 2 "a" "v1" 0 (some "q") none

/-- C7: Loader construction fails fast on an unknown strategy string — for
every string outside {"no", "mirrored", "multi_worker_mirrored"} construction
returns a configuration error before any load; for each of the three
recognized names it succeeds and selects the corresponding strategy. -/
theorem loader_init_fail_fast :
    (∀ s : String, s ∉ (["no", "mirrored", "multi_worker_mirrored"] : List String) →
      ∃ e, Loader.init s = .error e)
    ∧ Loader.init "no" = .ok ⟨.noStrategy⟩
    ∧ Loader.init "mirrored" = .ok ⟨.mirroredStrategy⟩
    ∧ Loader.init "multi_worker_mirrored" = .ok ⟨.multiWorkerMirroredStrategy⟩ := by
  refine ⟨?_, by simp [Loader.init, Strategy.ofString, Loader.strategiesKeys, Loader.strategies],
    by simp [Loader.init, Strategy.ofString, Loader.strategiesKeys, Loader.strategies],
    by simp [Loader.init, Strategy.ofString, Loader.strategiesKeys, Loader.strategies]⟩
  intro s hs
  simp only [List.mem_cons, List.not_mem_nil, or_false, not_or] at hs
  obtain ⟨h1, h2, h3⟩ := hs
  exact ⟨.valueError s, by simp [Loader.init, Strategy.ofString, h1, h2, h3]⟩

/-- Witness for C7 at the concrete string "bogus". -/
theorem loader_init_fail_fast_witness :
    (∃ e, Loader.init "bogus" = .error e) ∧ Loader.init "no" = .ok ⟨.noStrategy⟩ :=
  ⟨loader_init_fail_fast.1 "bogus" (by decide), loader_init_fail_fast.2.1⟩

/-- C6: `Model.predict` returns the NotLoaded error, carrying the model's name
and tag, exactly when the model is not loaded (no execution handle set); in
that case the result is an error, so the handle is never invoked. -/
theorem predict_not_loaded_iff (m : Model) (x : Tensor) :
    ((∃ n t, m.predict x = .error (.notLoaded n t)) ↔ m.loaded = false)
    ∧ (m.loaded = false → m.predict x = .error (.notLoaded m.name m.tag)) := by
  rcases hm : m.model with _ | h
  · refine ⟨⟨fun _ => by simp [Model.loaded, hm], fun _ => ⟨m.name, m.tag, ?_⟩⟩, fun _ => ?_⟩
    · simp [Model.predict, hm]
    · simp [Model.predict, hm]
  · constructor
    · constructor
      · rintro ⟨n, t, hpred⟩
        exfalso
        rcases hi : h.input_shape with _ | ishape
        · simp [Model.predict, hm, hi] at hpred
        · by_cases hd : ishape.tail = x.shape.tail
          · simp [Model.predict, hm, hi, List.drop_one, hd] at hpred
          · simp [Model.predict, hm, hi, List.drop_one, hd] at hpred
      · intro hl
        simp [Model.loaded, hm] at hl
    · intro hl
      simp [Model.loaded, hm] at hl

/-- Witness for C6 at the concrete unloaded model `mU`. -/
theorem predict_not_loaded_iff_witness :
    Model.predict mU ⟨[3, 5]⟩ = .error (.notLoaded "a" "v1") :=
  (predict_not_loaded_iff mU ⟨[3, 5]⟩).2 (by decide)

/-- C5: when the execution handle exposes an expected input shape, `predict`
returns the InputShape error carrying the expected and actual trailing
dimensions exactly when those trailing dimensions differ; when they match, or
when no input shape is exposed, `predict` delegates to the handle. -/
theorem predict_input_shape_check (m : Model) (h : Handle) (x : Tensor)
    (hm : m.model = some h) :
    (∀ ishape, h.input_shape = some ishape →
      (m.predict x = .error (.inputShape (ishape.drop 1) (x.shape.drop 1))
          ↔ ishape.drop 1 ≠ x.shape.drop 1)
      ∧ (ishape.drop 1 = x.shape.drop 1 → m.predict x = .ok (h, x)))
    ∧ (h.input_shape = none → m.predict x = .ok (h, x)) := by
  constructor
  · intro ishape hi
    constructor
    · by_cases hd : ishape.tail = x.shape.tail
      · simp [Model.predict, hm, hi, List.drop_one, hd]
      · simp [Model.predict, hm, hi, List.drop_one, hd]
    · intro hd
      rw [List.drop_one, List.drop_one] at hd
      simp [Model.predict, hm, hi, List.drop_one, hd]
  · intro hi
    simp [Model.predict, hm, hi]

/-- Witness for C5: expected trailing dimensions [10], actual [5] signal
InputShape with expected = [10], actual = [5]. -/
theorem predict_input_shape_check_witness :
    Model.predict
      { id := 3, name := "a", tag := "v1", created_at := 0, path := none,
        loader := none, model := some ⟨9, some [1, 10]⟩ } ⟨[3, 5]⟩
      = .error (.inputShape [10] [5]) :=
  ((predict_input_shape_check
      { id := 3, name := "a", tag := "v1", created_at := 0, path := none,
        loader := none, model := some ⟨9, some [1, 10]⟩ } ⟨9, some [1, 10]⟩
      ⟨[3, 5]⟩ rfl).1 [1, 10] rfl).1.mpr (by decide)

/-- Looking up the just-inserted key returns the inserted model. -/
theorem CacheMap.insert_self (models : CacheMap) (key : Key) (m : Model) :
    models.insert key m key = some m := by
  simp [CacheMap.insert]

/-- Inserting at one key leaves every other key unchanged. -/
theorem CacheMap.insert_other (models : CacheMap) (key k : Key) (m : Model)
    (hk : k ≠ key) : models.insert key m k = models k := by
  simp [CacheMap.insert, hk]

/-- `Cache.allStep` never changes an entry that is already present. -/
theorem Cache.allStep_pres (models : CacheMap) (m : Model) (k : Key) (v : Model)
    (hv : models k = some v) : Cache.allStep models m k = some v := by
  unfold Cache.allStep
  split
  · exact hv
  · rcases eq_or_ne k m.key with rfl | hne
    · simp_all
    · rw [CacheMap.insert_other _ _ _ _ hne]
      exact hv

/-- Folding `Cache.allStep` over an enumeration never changes a present entry. -/
theorem Cache.allFold_pres (L : List Model) (models : CacheMap) (k : Key) (v : Model)
    (hv : models k = some v) : (L.foldl Cache.allStep models) k = some v := by
  induction L generalizing models with
  | nil => exact hv
  | cons m L ih => exact ih _ (Cache.allStep_pres models m k v hv)

/-- Any entry present after folding `Cache.allStep` was present before or is
one of the enumerated models. -/
theorem Cache.allFold_origin (L : List Model) (models : CacheMap) (k : Key) (a : Model)
    (ha : (L.foldl Cache.allStep models) k = some a) :
    models k = some a ∨ a ∈ L := by
  induction L generalizing models with
  | nil => exact Or.inl ha
  | cons m L ih =>
      rcases ih (Cache.allStep models m) ha with hstep | hmem
      · unfold Cache.allStep at hstep
        split at hstep
        · exact Or.inl hstep
        · rcases eq_or_ne k m.key with rfl | hne
          · rw [CacheMap.insert_self] at hstep
            have ham : a = m := (Option.some.inj hstep).symm
            subst ham
            exact Or.inr (List.mem_cons_self _ _)
          · rw [CacheMap.insert_other _ _ _ _ hne] at hstep
            exact Or.inl hstep
      · exact Or.inr (List.mem_cons_of_mem m hmem)

/-- `Cache.allStep` leaves the processed model's key present. -/
theorem Cache.allStep_present (models : CacheMap) (m : Model) :
    ((Cache.allStep models m) m.key).isSome := by
  unfold Cache.allStep
  split
  · assumption
  · rw [CacheMap.insert_self]
    rfl

/-- After folding `Cache.allStep`, every enumerated key is present. -/
theorem Cache.allFold_present (L : List Model) :
    ∀ (models : CacheMap) (m : Model), m ∈ L →
      ((L.foldl Cache.allStep models) m.key).isSome := by
  induction L with
  | nil => intro models m hm; cases hm
  | cons m' L ih =>
      intro models m hm
      rcases List.mem_cons.mp hm with rfl | hm2
      · obtain ⟨v, hv⟩ := Option.isSome_iff_exists.mp (Cache.allStep_present models m)
        show ((L.foldl Cache.allStep (Cache.allStep models m)) m.key).isSome
        rw [Cache.allFold_pres L (Cache.allStep models m) m.key v hv]
        rfl
      · exact ih _ _ hm2

/-- C1: `Cache.load` is idempotent per key — when a call stores a loaded
artifact, a second sequential call returns the same artifact (same execution
handle) without changing the map and without invoking `storage.load` (for any
would-be second storage result); and `storage.load` is invoked exactly when
the key is absent or the resident entry is not loaded. -/
theorem cache_load_idempotent (models : CacheMap) (name tag : String)
    (res₁ res₂ a : Model)
    (h1 : (Cache.load models name tag res₁).2.1 = some a)
    (ha : a.loaded = true) :
    Cache.load (Cache.load models name tag res₁).1 name tag res₂
        = ((Cache.load models name tag res₁).1, some a, false)
    ∧ ((Cache.load models name tag res₁).2.2 = true
        ↔ models (name, tag) = none
          ∨ ∃ m, models (name, tag) = some m ∧ m.loaded = false) := by
  have hM1 : (Cache.load models name tag res₁).1 (name, tag) = some a := h1
  constructor
  · show Cache.load_unlocked (Cache.load models name tag res₁).1 name tag res₂ = _
    simp only [Cache.load_unlocked]
    rw [hM1]
    simp [ha, hM1]
  · rcases hk : models (name, tag) with _ | m
    · simp [Cache.load, Cache.load_unlocked, hk]
    · simp [Cache.load, Cache.load_unlocked, hk]

/-- Witness for C1: load twice on an initially empty cache, with a loaded
storage result. -/
theorem cache_load_idempotent_witness :
    Cache.load (Cache.load CacheMap.empty "a" "v1" mA).1 "a" "v1" mU
        = ((Cache.load CacheMap.empty "a" "v1" mA).1, some mA, false)
    ∧ ((Cache.load CacheMap.empty "a" "v1" mA).2.2 = true
        ↔ CacheMap.empty ("a", "v1") = none
          ∨ ∃ m, CacheMap.empty ("a", "v1") = some m ∧ m.loaded = false) :=
  cache_load_idempotent CacheMap.empty "a" "v1" mA mU mA (by decide) (by decide)

/-- C2: consuming `Cache.all` never overwrites a resident entry — every key
already present keeps exactly its prior artifact instance — and (given that
the storage enumeration yields unloaded descriptors, per the storage contract)
every enumerated key that was absent is inserted as an unloaded entry. -/
theorem cache_all_no_overwrite (models : CacheMap) (storageAll : List Model)
    (hU : ∀ m ∈ storageAll, m.loaded = false) :
    (∀ k v, models k = some v → (Cache.all models storageAll).1 k = some v)
    ∧ (∀ m ∈ storageAll, models m.key = none →
        ∃ a, (Cache.all models storageAll).1 m.key = some a ∧ a.loaded = false) := by
  constructor
  · intro k v hv
    exact Cache.allFold_pres storageAll models k v hv
  · intro m hm habs
    obtain ⟨a, ha⟩ :=
      Option.isSome_iff_exists.mp (Cache.allFold_present storageAll models m hm)
    refine ⟨a, ha, ?_⟩
    rcases Cache.allFold_origin storageAll models m.key a ha with hold | hmem
    · rw [habs] at hold
      cases hold
    · exact hU a hmem

/-- Witness for C2: a loaded entry for ("a","v1") survives an enumeration that
lists the same key. -/
theorem cache_all_no_overwrite_witness :
    (Cache.all (Cache.save_to_cache CacheMap.empty mA) [mU]).1 ("a", "v1") = some mA :=
  (cache_all_no_overwrite (Cache.save_to_cache CacheMap.empty mA) [mU]
      (fun m hm => by rw [List.mem_singleton] at hm; subst hm; decide)).1
    ("a", "v1") mA (by decide)

/-- C3: `Cache.delete` removes the key from the map before calling
`storage.delete`; even when the storage call errors, the key is absent
afterwards, the error propagates unchanged, other keys are untouched, a
subsequent `load` must invoke storage, and a subsequent `all` can only serve
the key from a fresh storage enumeration, never the deleted resident entry. -/
theorem cache_delete_removes_before_storage {ε : Type} (models : CacheMap)
    (name tag : String) (storageResult : Except ε Unit) :
    (Cache.delete models name tag storageResult).1 (name, tag) = none
    ∧ (Cache.delete models name tag storageResult).2 = storageResult
    ∧ (∀ k, k ≠ (name, tag) → (Cache.delete models name tag storageResult).1 k = models k)
    ∧ (∀ res, (Cache.load (Cache.delete models name tag storageResult).1 name tag res).2.2 = true)
    ∧ (∀ L, (Cache.all (Cache.delete models name tag storageResult).1 L).1 (name, tag) = none
         ∨ ∃ m, m ∈ L
             ∧ (Cache.all (Cache.delete models name tag storageResult).1 L).1 (name, tag) = some m) := by
  have h0 : (Cache.delete models name tag storageResult).1 (name, tag) = none := by
    simp [Cache.delete, Cache.delete_from_cache, CacheMap.erase]
  refine ⟨h0, rfl, ?_, ?_, ?_⟩
  · intro k hk
    simp [Cache.delete, Cache.delete_from_cache, CacheMap.erase, hk]
  · intro res
    simp [Cache.load, Cache.load_unlocked, h0]
  · intro L
    rcases hfin : (Cache.all (Cache.delete models name tag storageResult).1 L).1 (name, tag)
      with _ | a
    · exact Or.inl rfl
    · refine Or.inr ⟨a, ?_, rfl⟩
      rcases Cache.allFold_origin L _ (name, tag) a hfin with hold | hmem
      · rw [h0] at hold
        cases hold
      · exact hmem

/-- Witness for C3: deleting ("a","v1") while the storage delete fails still
leaves the cache without the key, and the error propagates. -/
theorem cache_delete_removes_witness :
    (Cache.delete (Cache.save_to_cache CacheMap.empty mA) "a" "v1"
        (Except.error "boom" : Except String Unit)).1 ("a", "v1") = none
    ∧ (Cache.delete (Cache.save_to_cache CacheMap.empty mA) "a" "v1"
        (Except.error "boom" : Except String Unit)).2 = Except.error "boom" :=
  ⟨(cache_delete_removes_before_storage (Cache.save_to_cache CacheMap.empty mA)
      "a" "v1" (Except.error "boom")).1,
   (cache_delete_removes_before_storage (Cache.save_to_cache CacheMap.empty mA)
      "a" "v1" (Except.error "boom")).2.1⟩

/-- C4: `Cache.save` returns exactly the artifact produced by `storage.save`
and maps `(name, tag)` to it, overwriting any prior entry and leaving other
keys untouched; a subsequent `all` then serves an entry for the key (the
resident one, with no extra fetch) for every enumeration. -/
theorem cache_save_registers (models : CacheMap) (name tag : String) (r : Model)
    (hn : r.name = name) (ht : r.tag = tag) :
    (Cache.save models name tag r).2 = r
    ∧ (Cache.save models name tag r).1 (name, tag) = some r
    ∧ (∀ k, k ≠ (name, tag) → (Cache.save models name tag r).1 k = models k)
    ∧ (∀ L, (Cache.all (Cache.save models name tag r).1 L).1 (name, tag) = some r) := by
  have hkey : (Cache.save models name tag r).1 (name, tag) = some r := by
    simp [Cache.save, Cache.save_to_cache, hn, ht, CacheMap.insert]
  refine ⟨rfl, hkey, ?_, ?_⟩
  · intro k hk
    simp [Cache.save, Cache.save_to_cache, CacheMap.insert, hn, ht, hk]
  · intro L
    exact Cache.allFold_pres L _ (name, tag) r hkey

/-- Witness for C4 at a concrete save on the empty cache. -/
theorem cache_save_registers_witness :
    (Cache.save CacheMap.empty "a" "v1" mU).2 = mU
    ∧ (Cache.save CacheMap.empty "a" "v1" mU).1 ("a", "v1") = some mU :=
  ⟨(cache_save_registers CacheMap.empty "a" "v1" mU rfl rfl).1,
   (cache_save_registers CacheMap.empty "a" "v1" mU rfl rfl).2.1⟩

/-- C10: saving downgrades a loaded entry — when the map holds a loaded
artifact for the key and `storage.save` returns a freshly constructed model
(whose `__init__` leaves the execution handle unset), `Cache.save` (and
equally the `save_to_cache` callback) replaces the resident entry with the new
unloaded artifact, so the entry no longer reports loaded. -/
theorem cache_save_downgrades_loaded (models : CacheMap) (name tag : String)
    (old r : Model) (uid : Nat) (cat : Int) (p : Option String) (lo : Option Loader)
    (hold : models (name, tag) = some old) (hl : old.loaded = true)
    (hr : r = Model.init uid name tag cat p lo) :
    (Cache.save models name tag r).1 (name, tag) = some r
    ∧ r.loaded = false
    ∧ (Cache.save models name tag r).1 (name, tag) ≠ some old
    ∧ Cache.save_to_cache models r (name, tag) = some r := by
  subst hr
  have hload : (Model.init uid name tag cat p lo).loaded = false := rfl
  have hkey : Cache.save_to_cache models (Model.init uid name tag cat p lo) (name, tag)
      = some (Model.init uid name tag cat p lo) := by
    simp [Cache.save_to_cache, Model.init, CacheMap.insert]
  refine ⟨hkey, hload, ?_, hkey⟩
  show Cache.save_to_cache models (Model.init uid name tag cat p lo) (name, tag) ≠ some old
  rw [hkey]
  intro hcontra
  have heq : Model.init uid name tag cat p lo = old := Option.some.inj hcontra
  rw [← heq] at hl
  simp [Model.loaded, Model.init] at hl

/-- Witness for C10: saving over the loaded entry for ("a","v1") leaves an
unloaded entry. -/
theorem cache_save_downgrades_loaded_witness :
    (Cache.save (Cache.save_to_cache CacheMap.empty mA) "a" "v1" mU).1 ("a", "v1") = some mU
    ∧ mU.loaded = false :=
  ⟨(cache_save_downgrades_loaded (Cache.save_to_cache CacheMap.empty mA) "a" "v1"
      mA mU 2 0 (some "q") none (by decide) (by decide) rfl).1,
   (cache_save_downgrades_loaded (Cache.save_to_cache CacheMap.empty mA) "a" "v1"
      mA mU 2 0 (some "q") none (by decide) (by decide) rfl).2.1⟩

/-- `Cache.load_unlocked` leaves every key other than the loaded one unchanged. -/
theorem Cache.load_unlocked_pres_other (models : CacheMap) (name tag : String)
    (r : Model) (k : Key) (hk : k ≠ (name, tag)) :
    (Cache.load_unlocked models name tag r).1 k = models k := by
  simp only [Cache.load_unlocked]
  split
  · exact CacheMap.insert_other _ _ _ _ hk
  · rfl

/-- After `Cache.load_unlocked` with a loaded storage result, the target key
holds a loaded entry. -/
theorem Cache.load_unlocked_at_key (models : CacheMap) (name tag : String) (r : Model)
    (hr : r.loaded = true) :
    ∃ a, (Cache.load_unlocked models name tag r).1 (name, tag) = some a
      ∧ a.loaded = true := by
  rcases hk : models (name, tag) with _ | m
  · exact ⟨r, by simp [Cache.load_unlocked, hk, CacheMap.insert], hr⟩
  · by_cases hl : m.loaded = true
    · exact ⟨m, by simp [Cache.load_unlocked, hk, hl], hl⟩
    · exact ⟨r, by simp [Cache.load_unlocked, hk, hl, CacheMap.insert], hr⟩

/-- `Cache.load_unlocked` with a loaded storage result never downgrades a
loaded entry at any key. -/
theorem Cache.load_unlocked_pres_loaded (models : CacheMap) (name tag : String)
    (r : Model) (hr : r.loaded = true) (k : Key) (a : Model)
    (hk : models k = some a) (hl : a.loaded = true) :
    ∃ b, (Cache.load_unlocked models name tag r).1 k = some b ∧ b.loaded = true := by
  rcases eq_or_ne k (name, tag) with rfl | hne
  · exact ⟨a, by simp [Cache.load_unlocked, hk, hl], hl⟩
  · exact ⟨a, by rw [Cache.load_unlocked_pres_other models name tag r k hne, hk], hl⟩

/-- One preload iteration never downgrades a loaded entry. -/
theorem Cache.preloadStep_pres_loaded (sl : String → String → Model)
    (hL : ∀ n t, (sl n t).loaded = true) (models : CacheMap) (m : Model) (k : Key)
    (h : ∃ a, models k = some a ∧ a.loaded = true) :
    ∃ a, (Cache.preloadStep sl models m) k = some a ∧ a.loaded = true := by
  obtain ⟨a, hk, hl⟩ := h
  have h1 : Cache.allStep models m k = some a := Cache.allStep_pres models m k a hk
  exact Cache.load_unlocked_pres_loaded _ m.name m.tag _ (hL m.name m.tag) k a h1 hl

/-- One preload iteration leaves the processed model's key loaded. -/
theorem Cache.preloadStep_loads (sl : String → String → Model)
    (hL : ∀ n t, (sl n t).loaded = true) (models : CacheMap) (m : Model) :
    ∃ a, (Cache.preloadStep sl models m) m.key = some a ∧ a.loaded = true :=
  Cache.load_unlocked_at_key (Cache.allStep models m) m.name m.tag _ (hL m.name m.tag)

/-- Folding the preload loop never downgrades a loaded entry. -/
theorem Cache.preloadFold_pres_loaded (sl : String → String → Model)
    (hL : ∀ n t, (sl n t).loaded = true) (L : List Model) :
    ∀ (models : CacheMap) (k : Key), (∃ a, models k = some a ∧ a.loaded = true) →
      ∃ a, (L.foldl (Cache.preloadStep sl) models) k = some a ∧ a.loaded = true := by
  induction L with
  | nil => intro models k h; exact h
  | cons m L ih =>
      intro models k h
      exact ih _ _ (Cache.preloadStep_pres_loaded sl hL models m k h)

/-- After the preload loop every enumerated key holds a loaded entry. -/
theorem Cache.preloadFold_loads (sl : String → String → Model)
    (hL : ∀ n t, (sl n t).loaded = true) (L : List Model) :
    ∀ (models : CacheMap) (m : Model), m ∈ L →
      ∃ a, (L.foldl (Cache.preloadStep sl) models) m.key = some a ∧ a.loaded = true := by
  induction L with
  | nil => intro _ m hm; cases hm
  | cons m' L ih =>
      intro models m hm
      rcases List.mem_cons.mp hm with rfl | hm2
      · exact Cache.preloadFold_pres_loaded sl hL L _ _ (Cache.preloadStep_loads sl hL models m)
      · exact ih _ _ hm2

/-- C8: `Cache.new` with preload requested returns only after enumerating the
storage and loading each artifact — afterwards every enumerated key maps to a
loaded entry (given the storage-contract fact that `storage.load` returns
loaded models) — and `save_to_cache` / `delete_from_cache` are appended to
`on_save` / `on_delete`; the registered signals do not depend on the preload
flag or the enumeration, reflecting that registration precedes the preload. -/
theorem cache_new_preload (sigs : Signals) (storageAll : List Model)
    (storageLoad : String → String → Model)
    (hL : ∀ n t, (storageLoad n t).loaded = true) :
    (Cache.new sigs true storageAll storageLoad).1
        = { on_save := sigs.on_save ++ [Callback.saveToCache],
            on_delete := sigs.on_delete ++ [Callback.deleteFromCache] }
    ∧ (∀ (preload : Bool) (sa : List Model) (sl : String → String → Model),
        (Cache.new sigs preload sa sl).1 = (Cache.new sigs true storageAll storageLoad).1)
    ∧ (∀ m ∈ storageAll,
        ∃ a, (Cache.new sigs true storageAll storageLoad).2 m.key = some a
          ∧ a.loaded = true) := by
  refine ⟨rfl, ?_, ?_⟩
  · intro preload sa sl
    cases preload <;> rfl
  · intro m hm
    exact Cache.preloadFold_loads storageLoad hL storageAll CacheMap.empty m hm

/-- Witness for C8: preloading a one-model enumeration leaves its key loaded
and the callbacks registered. -/
theorem cache_new_preload_witness :
    (Cache.new ⟨[], []⟩ true [mU] (fun _ _ => mA)).1
        = { on_save := [Callback.saveToCache], on_delete := [Callback.deleteFromCache] }
    ∧ ∃ a, (Cache.new ⟨[], []⟩ true [mU] (fun _ _ => mA)).2 mU.key = some a
        ∧ a.loaded = true :=
  ⟨(cache_new_preload ⟨[], []⟩ [mU] (fun _ _ => mA) (fun _ _ => rfl)).1,
   (cache_new_preload ⟨[], []⟩ [mU] (fun _ _ => mA) (fun _ _ => rfl)).2.2 mU
     (List.mem_singleton.mpr rfl)⟩

/-- One of the two concurrent callers of `Cache.load`: its program counter
(0 = before acquiring the writer lock, 1 = inside the critical section,
2 = returned) and its returned artifact. -/
structure LoadTask where
  pc : Nat
  result : Option Model
deriving DecidableEq

/-- State of two concurrent `Cache.load(name, tag)` calls sharing one cache:
the map, the writer lock (holding task, if any), both tasks, and the number of
`storage.load` invocations performed so far. -/
structure LoadSys where
  models : CacheMap
  lock : Option Bool
  t0 : LoadTask
  t1 : LoadTask
  invocations : Nat

/-- One scheduler step of task `i`.  Acquiring the writer lock succeeds only
when it is free; the critical section (the whole `unsafe_load`, performed with
the lock held across its `await`) runs only for the lock holder, counts a
`storage.load` invocation when one happens, and releases the lock.  A task
that cannot move stutters. -/
def LoadStep (name tag : String) (res : Nat → Model) (i : Bool) (s : LoadSys) : LoadSys :=
  let t := if i then s.t1 else s.t0
  if t.pc = 0 then
    if s.lock = none then
      if i then { s with lock := some true, t1 := { t with pc := 1 } }
      else { s with lock := some false, t0 := { t with pc := 1 } }
    else s
  else if t.pc = 1 then
    if s.lock = some i then
      let out := Cache.load_unlocked s.models name tag (res s.invocations)
      let invs := s.invocations + (if out.2.2 then 1 else 0)
      if i then { s with models := out.1, lock := none,
                         t1 := { pc := 2, result := out.2.1 }, invocations := invs }
      else { s with models := out.1, lock := none,
                    t0 := { pc := 2, result := out.2.1 }, invocations := invs }
    else s
  else s

/-- Run a schedule (an arbitrary interleaving of the two tasks). -/
def LoadRun (name tag : String) (res : Nat → Model) (sched : List Bool)
    (s : LoadSys) : LoadSys :=
  sched.foldl (fun s i => LoadStep name tag res i s) s

/-- Initial state: both callers pending, lock free, no invocations yet. -/
def LoadInit (models : CacheMap) : LoadSys :=
  { models := models, lock := none, t0 := ⟨0, none⟩, t1 := ⟨0, none⟩, invocations := 0 }

/-- Inductive invariant of the two-caller system for a key that is initially
absent or unloaded: an exhaustive description of the reachable states. -/
def LoadInv (models : CacheMap) (name tag : String) (res : Nat → Model)
    (s : LoadSys) : Prop :=
  s = ⟨models, none, ⟨0, none⟩, ⟨0, none⟩, 0⟩
  ∨ s = ⟨models, some false, ⟨1, none⟩, ⟨0, none⟩, 0⟩
  ∨ s = ⟨models, some true, ⟨0, none⟩, ⟨1, none⟩, 0⟩
  ∨ s = ⟨models.insert (name, tag) (res 0), none, ⟨2, some (res 0)⟩, ⟨0, none⟩, 1⟩
  ∨ s = ⟨models.insert (name, tag) (res 0), none, ⟨0, none⟩, ⟨2, some (res 0)⟩, 1⟩
  ∨ s = ⟨models.insert (name, tag) (res 0), some true, ⟨2, some (res 0)⟩, ⟨1, none⟩, 1⟩
  ∨ s = ⟨models.insert (name, tag) (res 0), some false, ⟨1, none⟩, ⟨2, some (res 0)⟩, 1⟩
  ∨ s = ⟨models.insert (name, tag) (res 0), none, ⟨2, some (res 0)⟩, ⟨2, some (res 0)⟩, 1⟩

/-- The invariant is preserved by every step of either task. -/
theorem LoadInv_step (models : CacheMap) (name tag : String) (res : Nat → Model)
    (hres : ∀ k, (res k).loaded = true)
    (hcold : ∀ m, models (name, tag) = some m → m.loaded = false)
    (i : Bool) (s : LoadSys) (h : LoadInv models name tag res s) :
    LoadInv models name tag res (LoadStep name tag res i s) := by
  have hlu1 : Cache.load_unlocked models name tag (res 0)
      = (models.insert (name, tag) (res 0), some (res 0), true) := by
    rcases hk : models (name, tag) with _ | m
    · simp [Cache.load_unlocked, hk, CacheMap.insert]
    · have hm := hcold m hk
      simp [Cache.load_unlocked, hk, hm, CacheMap.insert]
  have hkey : (models.insert (name, tag) (res 0)) (name, tag) = some (res 0) :=
    CacheMap.insert_self models (name, tag) (res 0)
  have hlu2 : Cache.load_unlocked (models.insert (name, tag) (res 0)) name tag (res 1)
      = (models.insert (name, tag) (res 0), some (res 0), false) := by
    simp [Cache.load_unlocked, hkey, hres 0]
  unfold LoadInv at h ⊢
  rcases h with h | h | h | h | h | h | h | h <;> subst h <;> cases i <;>
    simp [LoadStep, hlu1, hlu2]

/-- The invariant holds after running any schedule from the initial state. -/
theorem LoadInv_run (models : CacheMap) (name tag : String) (res : Nat → Model)
    (hres : ∀ k, (res k).loaded = true)
    (hcold : ∀ m, models (name, tag) = some m → m.loaded = false) :
    ∀ (sched : List Bool) (s : LoadSys), LoadInv models name tag res s →
      LoadInv models name tag res (LoadRun name tag res sched s) := by
  intro sched
  induction sched with
  | nil => intro s h; exact h
  | cons i sched ih =>
      intro s h
      exact ih _ (LoadInv_step models name tag res hres hcold i s h)

/-- C9: under the writer lock, two concurrent `Cache.load` calls for the same
key (initially absent or unloaded, with `storage.load` returning loaded
models) never run their load sections simultaneously, and whenever both have
completed — under any interleaving — exactly one `storage.load` invocation
happened and both callers got the same loaded artifact. -/
theorem cache_load_concurrent_single (models : CacheMap) (name tag : String)
    (res : Nat → Model) (sched : List Bool)
    (hres : ∀ k, (res k).loaded = true)
    (hcold : ∀ m, models (name, tag) = some m → m.loaded = false) :
    (¬((LoadRun name tag res sched (LoadInit models)).t0.pc = 1
        ∧ (LoadRun name tag res sched (LoadInit models)).t1.pc = 1))
    ∧ ((LoadRun name tag res sched (LoadInit models)).t0.pc = 2 →
        (LoadRun name tag res sched (LoadInit models)).t1.pc = 2 →
        (LoadRun name tag res sched (LoadInit models)).invocations = 1
        ∧ (LoadRun name tag res sched (LoadInit models)).t0.result = some (res 0)
        ∧ (LoadRun name tag res sched (LoadInit models)).t1.result = some (res 0)
        ∧ (res 0).loaded = true) := by
  have hInv := LoadInv_run models name tag res hres hcold sched (LoadInit models)
    (Or.inl rfl)
  unfold LoadInv at hInv
  rcases hInv with h | h | h | h | h | h | h | h <;> rw [h] <;> simp [hres 0]

/-- Witness for C9: a full interleaving where caller 0 then caller 1 complete
on an initially empty cache. -/
theorem cache_load_concurrent_single_witness :
    (LoadRun "a" "v1" (fun _ => mA) [false, false, true, true]
        (LoadInit CacheMap.empty)).invocations = 1
    ∧ (LoadRun "a" "v1" (fun _ => mA) [false, false, true, true]
        (LoadInit CacheMap.empty)).t0.result = some mA
    ∧ (LoadRun "a" "v1" (fun _ => mA) [false, false, true, true]
        (LoadInit CacheMap.empty)).t1.result = some mA
    ∧ mA.loaded = true :=
  (cache_load_concurrent_single CacheMap.empty "a" "v1" (fun _ => mA)
      [false, false, true, true] (fun _ => rfl)
      (fun m h => by simp [CacheMap.empty] at h)).2 (by decide) (by decide)
